import Mathlib

namespace Wolo

/-!
Shallow embedding of the wolo incremental task-execution engine
(src/wolo/task.py, src/wolo/log.py), written to settle the claims about
change detection, the task run/rerun lifecycle, the tree runner and log
persistence.

Python runtime values that can appear as parameter snapshots, log-record
fields and JSON content are modelled by the inductive type `Value`
(None, bool, int, str, list, tuple, dict with string keys).  Python `==`
on such values is modelled by `pyEq`: a tuple never equals a list, and
dict comparison is order-insensitive and lookup-based, as in CPython.
(Cross-type numeric equality such as `True == 1` and floats are not
modelled; no claim depends on them.)
-/

inductive Value where
  | none
  | bool (b : Bool)
  | int (n : Int)
  | str (s : String)
  | list (xs : List Value)
  | tuple (xs : List Value)
  | dict (kvs : List (String × Value))
  deriving Repr

/-- Dictionary lookup: `old_values[k]` on an association list, first match. -/
def lookupKey (kvs : List (String × Value)) (k : String) : Option Value :=
  match kvs with
  | [] => Option.none
  | (k2, v) :: rest => if k2 = k then some v else lookupKey rest k

mutual

/-- Python `==` on runtime values: structural on scalars, elementwise on
same-kind sequences (a tuple is never equal to a list), and
order-insensitive, lookup-based comparison of dicts. -/
def pyEq : Value → Value → Bool
  | .none, .none => true
  | .bool a, .bool b => a == b
  | .int a, .int b => a == b
  | .str a, .str b => a == b
  | .list a, .list b => pyEqList a b
  | .tuple a, .tuple b => pyEqList a b
  | .dict a, .dict b => a.length == b.length && pyEqEntries a b
  | _, _ => false

/-- Elementwise Python `==` on sequences of equal length. -/
def pyEqList : List Value → List Value → Bool
  | [], [] => true
  | x :: xs, y :: ys => pyEq x y && pyEqList xs ys
  | _, _ => false

/-- Every key of the first dict is present in the second with a
`pyEq`-equal value (together with the length check this is CPython's
dict equality). -/
def pyEqEntries : List (String × Value) → List (String × Value) → Bool
  | [], _ => true
  | (k, v) :: rest, b =>
    (match lookupKey b k with
     | some w => pyEq v w
     | Option.none => false) && pyEqEntries rest b

end

/-- Python dict equality packaged for reuse. -/
def pyEqDict (a b : List (String × Value)) : Bool :=
  a.length == b.length && pyEqEntries a b

/-- The normalisation performed inline in `Task._check` (src/wolo/task.py
line 80): `para._log_value if not isinstance(para._log_value, tuple) else
list(para._log_value)` — a top-level tuple is converted to a list before
comparison. -/
def normTop : Value → Value
  | .tuple xs => .list xs
  | v => v

/-- A wolo parameter as consumed by `Task` (src/wolo/task.py): a `name`,
the snapshot `_log_value` currently held by the parameter, and
`updated_log_value`, the snapshot `_log_value` holds after `para._update()`
refreshes it.  `_update` itself lives in `wolo/parameters.py`, which is not
part of the sources; per the spec's parameter surface it is "an operation to
refresh `log_value` from current state", so the refreshed snapshot is kept
abstract as a field. -/
structure Param where
  name : String
  _log_value : Value
  updated_log_value : Value
  deriving Repr

/-- A log record (class `TaskLog`, src/wolo/log.py lines 7-40): index
(position path, display only), a task identity label, the inputs/outputs
snapshot mappings, the tri-state `last_run_success` (`some true` /
`some false` / `none` for Python `True` / `False` / `None`), and the info
mapping filled from the after-hook.  Field order follows `__init__`'s
assignment order. -/
structure TaskLog where
  index : Value
  task_class : String
  inputs : List (String × Value)
  outputs : List (String × Value)
  last_run_success : Option Bool
  info : List (String × Value)
  deriving Repr

/-- Python `==` on two `TaskLog`s (src/wolo/log.py lines 27-28):
`isinstance` check plus `__dict__` equality, i.e. full structural equality
of all six fields under Python value equality. -/
def TaskLog.pyEqLog (a b : TaskLog) : Bool :=
  pyEq a.index b.index && a.task_class == b.task_class
    && pyEqDict a.inputs b.inputs && pyEqDict a.outputs b.outputs
    && a.last_run_success == b.last_run_success && pyEqDict a.info b.info

/-- The hooks a task run can invoke, in order: the action-hook, the
success-hook, the after-hook.  `Task._run` and `Task._rerun` below return
the list of hooks they invoked, so that "hook X was (not) called" is a
provable statement. -/
inductive Hook where
  | action
  | success
  | after
  deriving Repr, DecidableEq

/-- Exceptions the embedded code can raise: `Warning("Multiple Parameter
have the same name! ...")` from `Task._process` (src/wolo/task.py line 72),
and the `TypeError` Python raises when `_process` iterates a non-iterable
hook return (such as the default `after`'s `None`). -/
inductive PyErr where
  | warningDuplicate (names : List String)
  | typeError
  deriving Repr, DecidableEq

/-- A task as it exists after construction (src/wolo/task.py): the
processed input parameter set (user inputs plus the three reserved
provenance parameters), the processed output parameter set, the value the
action-hook returns (stored into `self.report`), the boolean results the
success-hook returns, and the after-hook's return — `Option.none` models
the inherited default `after`, which returns Python `None`
(src/wolo/task.py lines 65-67). -/
structure Task where
  inputs : List Param
  outputs : List Param
  action_report : Value
  success_results : List Bool
  after_params : Option (List Param)

/-- Translation of `Task._process` (src/wolo/task.py lines 69-73): collect
the parameter names, raise `Warning` if any name occurs twice, and
otherwise return the parameters keyed by name (the namedtuple preserves
the given order, so the list itself is kept). -/
def Task._process (para_list : List Param) : Except PyErr (List Param) :=
  let name_list := para_list.map Param.name
  if name_list.Nodup then Except.ok para_list
  else Except.error (PyErr.warningDuplicate name_list)

/-- Passing a hook's return value to `self._process`: the default
after-hook returns `None`, and iterating `None` inside `_process` raises
`TypeError`; a parameter list is processed normally. -/
def processHookReturn : Option (List Param) → Except PyErr (List Param)
  | Option.none => Except.error PyErr.typeError
  | some ps => Task._process ps

/-- Translation of `Task._check` (src/wolo/task.py lines 75-85): walk the
current parameters with a `changed` flag that starts false; a parameter
whose name is missing from `old_values` sets it, as does one whose
(top-level-tuple-normalised) snapshot is not Python-equal to the stored
value; names present only in `old_values` are never looked at. -/
def Task._check (para_dic : List Param) (old_values : List (String × Value)) : Bool :=
  para_dic.foldl
    (fun changed para =>
      match lookupKey old_values para.name with
      | some old_value =>
          if pyEq (normTop para._log_value) old_value then changed else true
      | Option.none => true)
    false

/-- Translation of `Task._rebuild` (src/wolo/task.py lines 87-90): call
`para._update()` on every parameter, then return the mapping from each
name to the refreshed snapshot. -/
def Task._rebuild (para_dic : List Param) : List (String × Value) :=
  para_dic.map (fun para => (para.name, para.updated_log_value))

/-- Translation of `Task._rerun` (src/wolo/task.py lines 102-115): invoke
the action-hook, AND together the success-hook's results, build the info
mapping from the after-hook's processed return (raising out of the method
if that fails), then on success refresh and store the input and output
snapshots and set `last_run_success = True`, and on failure leave them
untouched and set `last_run_success = False`.  The first component lists
the hooks that were invoked. -/
def Task._rerun (t : Task) (log : TaskLog) : List Hook × Except PyErr TaskLog :=
  let hooks := [Hook.action, Hook.success, Hook.after]
  let success := t.success_results.all id
  match processHookReturn t.after_params with
  | Except.error e => (hooks, Except.error e)
  | Except.ok after_ps =>
    let log1 := { log with info := Task._rebuild after_ps }
    if success then
      (hooks, Except.ok { log1 with
        inputs := Task._rebuild t.inputs,
        outputs := Task._rebuild t.outputs,
        last_run_success := some true })
    else
      (hooks, Except.ok { log1 with last_run_success := some false })

/-- Translation of `Task._run` (src/wolo/task.py lines 92-100): compute
`inputs_changed` and `outputs_changed` with `_check`, rerun when either is
true or the prior `last_run_success` is not exactly `True`, and otherwise
return the prior record unchanged with no hook invoked. -/
def Task._run (t : Task) (log : TaskLog) : List Hook × Except PyErr TaskLog :=
  let inputs_changed := Task._check t.inputs log.inputs
  let outputs_changed := Task._check t.outputs log.outputs
  if inputs_changed = true ∨ outputs_changed = true ∨ ¬ log.last_run_success = some true then
    Task._rerun t log
  else
    ([], Except.ok log)

/-- The three reserved provenance parameters injected by `Task.__init__`
(src/wolo/task.py lines 54-56): the task's class name, its positional
arguments (a Python tuple) and its keyword arguments (a Python dict),
under the reserved names `name_`, `args_`, `kwargs_`.  A plain `Parameter`
snapshot is its value. -/
def reservedParams (clsName : String) (args : List Value)
    (kwargs : List (String × Value)) : List Param :=
  [ { name := "name_", _log_value := .str clsName, updated_log_value := .str clsName },
    { name := "args_", _log_value := .tuple args, updated_log_value := .tuple args },
    { name := "kwargs_", _log_value := .dict kwargs, updated_log_value := .dict kwargs } ]

/-- Translation of `Task.__init__` (src/wolo/task.py lines 51-59): after
the before-hook, process the user-declared inputs with the three reserved
parameters appended, then process the user-declared outputs; either
`_process` call may raise, aborting construction. -/
def Task.init (userInputs userOutputs : List Param) (clsName : String)
    (args : List Value) (kwargs : List (String × Value)) (action_report : Value)
    (success_results : List Bool) (after_params : Option (List Param)) :
    Except PyErr Task := do
  let inputs ← Task._process (userInputs ++ reservedParams clsName args kwargs)
  let outputs ← Task._process userOutputs
  Except.ok { inputs := inputs, outputs := outputs, action_report := action_report,
              success_results := success_results, after_params := after_params }
/-- Modelled from the spec: the task tree consumed by the tree runner
`_run_tasks` of `wolo/workflow.py`, which is not among the sources (only
its tests in src/tests/tests_simple.py are).  A node is either a leaf task
or an ordered group of child nodes (spec section 4.3); a leaf task is kept
abstract as the function the runner calls on it — its `run`/`_run` method,
taking the reconciled prior record to the new record, exactly as the
tests' `MockTask._run` does. -/
inductive TaskTree where
  | leaf (run : TaskLog → TaskLog)
  | branch (children : List TaskTree)

/-- A node of the persisted log tree: a leaf record or an ordered group of
child nodes, mirroring `TaskTree` (spec section 3, src/wolo/log.py's
nested lists of `TaskLog`). -/
inductive LogTree where
  | leaf (record : TaskLog)
  | branch (children : List LogTree)
  deriving Repr

/-- Modelled from the spec: the "empty/unknown record" a task is given
when no prior entry exists at its tree position or the prior entry has the
wrong shape (spec section 4.3 steps 1-3): empty mappings and unknown
(`None`) `last_run_success`. -/
def emptyRecord : TaskLog :=
  { index := Value.none, task_class := "", inputs := [], outputs := [],
    last_run_success := Option.none, info := [] }

mutual

/-- Modelled from the spec: the runner's step at one position of the
current tree (spec section 4.3 steps 2-3).  A leaf task runs against the
previous entry when that entry is a single record, else against the
empty/unknown record, and its new record's `last_run_success` being
exactly `True` is its success contribution; a group recurses, passing the
previous entry as prior log only when that entry is itself a group. -/
def runTreeNode : TaskTree → Option LogTree → Bool × LogTree
  | .leaf run, prev =>
    let prior_record := match prev with
      | some (.leaf r) => r
      | _ => emptyRecord
    let new_record := run prior_record
    (new_record.last_run_success == some true, .leaf new_record)
  | .branch ts, prev =>
    let sub_prior := match prev with
      | some (.branch ls) => ls
      | _ => []
    let res := _run_tasks ts sub_prior
    (res.1, .branch res.2)

/-- Modelled from the spec: `_run_tasks` of `wolo/workflow.py` (not among
the sources), per spec section 4.3.  Every position of the current tree is
processed left to right and paired with the previous entry at the same
index when the prior log is long enough (the tests call the pairing
`helper.cut_or_pad`); successes fold by AND with no short-circuiting, and
the new log has exactly one entry per current position, so prior entries
beyond the current length are dropped. -/
def _run_tasks : List TaskTree → List LogTree → Bool × List LogTree
  | [], _ => (true, [])
  | t :: ts, prior =>
    let head_prior : Option LogTree := match prior with
      | [] => Option.none
      | p :: _ => some p
    let tail_prior : List LogTree := match prior with
      | [] => []
      | _ :: ps => ps
    let node_res := runTreeNode t head_prior
    let rest_res := _run_tasks ts tail_prior
    (node_res.1 && rest_res.1, node_res.2 :: rest_res.2)

end

/-- Modelled from the spec: the runner's entry point, where the prior log
may also be absent (`_run_tasks(tree, None)` in the tests); an absent
prior log behaves as an empty one — every position starts fresh. -/
def run_tasks (tree : List TaskTree) (prior : Option (List LogTree)) :
    Bool × List LogTree :=
  _run_tasks tree (match prior with
    | some l => l
    | Option.none => [])

/-- The common leaf/group shape of a task tree and a log tree, used to
state the pruning law: at every nesting level the new log has exactly as
many entries as the current tree. -/
inductive Shape where
  | leaf
  | branch (children : List Shape)
  deriving Repr

mutual

/-- Shape of a task-tree node. -/
def taskShape : TaskTree → Shape
  | .leaf _ => .leaf
  | .branch ts => .branch (taskShapeList ts)

/-- Shapes of a list of task-tree nodes. -/
def taskShapeList : List TaskTree → List Shape
  | [] => []
  | t :: ts => taskShape t :: taskShapeList ts

end

mutual

/-- Shape of a log-tree node. -/
def logShape : LogTree → Shape
  | .leaf _ => .leaf
  | .branch ls => .branch (logShapeList ls)

/-- Shapes of a list of log-tree nodes. -/
def logShapeList : List LogTree → List Shape
  | [] => []
  | l :: ls => logShape l :: logShapeList ls

end

mutual

/-- The leaf records of a log tree, depth-first, left to right. -/
def logLeaves : LogTree → List TaskLog
  | .leaf r => [r]
  | .branch ls => logLeavesList ls

/-- The leaf records of a list of log trees. -/
def logLeavesList : List LogTree → List TaskLog
  | [] => []
  | l :: ls => logLeaves l ++ logLeavesList ls

end

mutual

/-- The number of leaf tasks of a task-tree node. -/
def taskLeafCount : TaskTree → Nat
  | .leaf _ => 1
  | .branch ts => taskLeafCountList ts

/-- The number of leaf tasks of a list of task-tree nodes. -/
def taskLeafCountList : List TaskTree → Nat
  | [] => 0
  | t :: ts => taskLeafCount t + taskLeafCountList ts

end

/-- Lexicographic key order used by `json.dump(..., sort_keys=True)`
(src/wolo/log.py line 84), as a boolean on the underlying character
lists. -/
def keyLe (a b : String) : Bool :=
  a.data ≤ b.data

/-- Insert one key/value entry into a key-sorted entry list (stable, as
Python's sort is). -/
def insertEntry (kv : String × Value) : List (String × Value) → List (String × Value)
  | [] => [kv]
  | kv2 :: rest =>
    if keyLe kv.1 kv2.1 then kv :: kv2 :: rest else kv2 :: insertEntry kv rest

/-- Sort a dict's entries by key, modelling `sort_keys=True`: the JSON
file stores each object's keys in sorted order, and `json.load` hands the
dict back in that order. -/
def sortEntries : List (String × Value) → List (String × Value)
  | [] => []
  | kv :: rest => insertEntry kv (sortEntries rest)

mutual

/-- The effect on a value of being written with `json.dump(...,
sort_keys=True)` and read back with `json.load` (src/wolo/log.py lines
74-84): scalars survive unchanged, every sequence comes back as a list (a
tuple's native type does not survive — JSON has only arrays), and a dict
comes back with its keys in sorted order. -/
def jsonRT : Value → Value
  | .none => .none
  | .bool b => .bool b
  | .int n => .int n
  | .str s => .str s
  | .list xs => .list (jsonRTList xs)
  | .tuple xs => .list (jsonRTList xs)
  | .dict kvs => .dict (sortEntries (jsonRTEntries kvs))

/-- JSON round trip of a list of values. -/
def jsonRTList : List Value → List Value
  | [] => []
  | x :: xs => jsonRT x :: jsonRTList xs

/-- JSON round trip of a dict's entries, values round-tripped in place. -/
def jsonRTEntries : List (String × Value) → List (String × Value)
  | [] => []
  | (k, v) :: rest => (k, jsonRT v) :: jsonRTEntries rest

end

/-- How `last_run_success` is stored in the JSON object: `None` as null,
a boolean as itself. -/
def lrsToValue : Option Bool → Value
  | Option.none => Value.none
  | some b => .bool b

/-- Reading `last_run_success` back from a loaded JSON value; anything but
null or a boolean is not a value task.py ever stores there. -/
def lrsFromValue : Value → Option (Option Bool)
  | Value.none => some Option.none
  | .bool b => some (some b)
  | _ => Option.none

/-- Serialisation of one record as performed by `Log._write`'s
`lambda x: dict(x)` (src/wolo/log.py lines 19-21 and 83): the record's
`__dict__` as a JSON object, entries in `__init__`'s assignment order
(the dump then sorts the keys). -/
def taskLogToJson (r : TaskLog) : Value :=
  .dict [("index", r.index), ("task_class", .str r.task_class),
         ("inputs", .dict r.inputs), ("outputs", .dict r.outputs),
         ("last_run_success", lrsToValue r.last_run_success),
         ("info", .dict r.info)]

/-- Reconstruction of one record as performed by `TaskLog._from_dict`,
i.e. `cls(**dict)` (src/wolo/log.py lines 38-40): each of the six fields
is taken from the loaded object by name; a malformed object (not a dict,
missing keys, wrongly shaped field values) raises, which is modelled as
`Option.none`. -/
def taskLogFromJson : Value → Option TaskLog
  | .dict kvs => do
    let index ← lookupKey kvs "index"
    let tcv ← lookupKey kvs "task_class"
    let inv ← lookupKey kvs "inputs"
    let outv ← lookupKey kvs "outputs"
    let lrsv ← lookupKey kvs "last_run_success"
    let infov ← lookupKey kvs "info"
    match tcv, inv, outv, infov with
    | .str tc, .dict ins, .dict outs, .dict inf =>
      do
        let lrs ← lrsFromValue lrsv
        some { index := index, task_class := tc, inputs := ins, outputs := outs,
               last_run_success := lrs, info := inf }
    | _, _, _, _ => Option.none
  | _ => Option.none

mutual

/-- Serialisation of a log-tree node, following `_recursive_iterate_log`
(src/wolo/log.py lines 161-166): a group becomes a JSON array, a leaf
becomes its record's object. -/
def logTreeToJson : LogTree → Value
  | .leaf r => taskLogToJson r
  | .branch ls => .list (logTreeListToJson ls)

/-- Serialisation of a list of log-tree nodes. -/
def logTreeListToJson : List LogTree → List Value
  | [] => []
  | l :: ls => logTreeToJson l :: logTreeListToJson ls

end

mutual

/-- Loading one node of the persisted tree, following
`_recursive_iterate_log` with `TaskLog._from_dict` (src/wolo/log.py lines
74-77 and 161-166): a loaded array recurses into a group, anything else
is handed to `_from_dict`. -/
def logTreeFromJson : Value → Option LogTree
  | .list xs => (logTreeListFromJson xs).map .branch
  | v => (taskLogFromJson v).map .leaf

/-- Loading a list of nodes of the persisted tree. -/
def logTreeListFromJson : List Value → Option (List LogTree)
  | [] => some []
  | x :: xs =>
    match logTreeFromJson x, logTreeListFromJson xs with
    | some l, some ls => some (l :: ls)
    | _, _ => Option.none

end

/-- The value `Log._write` (src/wolo/log.py lines 81-84) leaves in the log
file, as it will be seen by a later load: the top-level list of serialised
nodes, passed through the dump/load round trip (`jsonRT`). -/
def Log._write (log : List LogTree) : Value :=
  jsonRT (.list (logTreeListToJson log))

/-- The load of `Log._load` (src/wolo/log.py lines 74-79) applied to the
file's content. -/
def Log._load : Value → Option (List LogTree)
  | .list xs => logTreeListFromJson xs
  | _ => Option.none

/-- Whether a dict's keys are pairwise distinct (Python dicts always
satisfy this; the model's association lists need it stated). -/
def keysNodup (kvs : List (String × Value)) : Bool :=
  decide (kvs.map Prod.fst).Nodup

mutual

/-- Whether a value is already in persisted shape, so the JSON round trip
can preserve it: no native tuple anywhere (JSON arrays load back as
lists), and every dict has pairwise-distinct keys. -/
def jsonStable : Value → Bool
  | .none => true
  | .bool _ => true
  | .int _ => true
  | .str _ => true
  | .list xs => jsonStableList xs
  | .tuple _ => false
  | .dict kvs => keysNodup kvs && jsonStableEntries kvs

/-- `jsonStable` on all members of a list. -/
def jsonStableList : List Value → Bool
  | [] => true
  | x :: xs => jsonStable x && jsonStableList xs

/-- `jsonStable` on all values of a dict's entries. -/
def jsonStableEntries : List (String × Value) → Bool
  | [] => true
  | (_, v) :: rest => jsonStable v && jsonStableEntries rest

end

/-- A record all of whose field values are in persisted shape. -/
def recordJsonStable (r : TaskLog) : Bool :=
  jsonStable r.index && jsonStable (.dict r.inputs)
    && jsonStable (.dict r.outputs) && jsonStable (.dict r.info)

mutual

/-- All records of a log-tree node are in persisted shape. -/
def logTreeJsonStable : LogTree → Bool
  | .leaf r => recordJsonStable r
  | .branch ls => logTreeListJsonStable ls

/-- All records of a list of log-tree nodes are in persisted shape. -/
def logTreeListJsonStable : List LogTree → Bool
  | [] => true
  | l :: ls => logTreeJsonStable l && logTreeListJsonStable ls

end

mutual

/-- Python `==` on two log-tree nodes: records compare by `TaskLog.__eq__`
(full structural equality), groups elementwise; a record never equals a
group. -/
def logTreePyEq : LogTree → LogTree → Bool
  | .leaf a, .leaf b => TaskLog.pyEqLog a b
  | .branch a, .branch b => logTreeListPyEq a b
  | _, _ => false

/-- Python `==` on two lists of log-tree nodes. -/
def logTreeListPyEq : List LogTree → List LogTree → Bool
  | [], [] => true
  | a :: as_, b :: bs => logTreePyEq a b && logTreeListPyEq as_ bs
  | _, _ => false

end

/-- Concrete fixture: a prior record with `last_run_success = True` and
empty snapshot mappings. -/
def witLogTrue : TaskLog :=
  { index := Value.none, task_class := "Wit", inputs := [], outputs := [],
    last_run_success := some true, info := [] }

/-- Concrete fixture: a prior record with unknown (`None`)
`last_run_success`. -/
def witLogNone : TaskLog :=
  { index := Value.none, task_class := "Wit", inputs := [], outputs := [],
    last_run_success := Option.none, info := [] }

/-- Concrete fixture: a task with no user parameters whose success-hook
returns an empty result list and whose after-hook returns an empty
parameter list. -/
def witTaskSkip : Task :=
  { inputs := [], outputs := [], action_report := Value.none,
    success_results := [], after_params := some [] }

/-- Concrete fixture: an input parameter whose refreshed snapshot differs
from its current one. -/
def witParamA : Param :=
  { name := "a", _log_value := Value.int 1, updated_log_value := Value.int 2 }

/-- Concrete fixture: a task with one input parameter and a failing
success-hook. -/
def witTaskFail : Task :=
  { inputs := [witParamA], outputs := [], action_report := Value.none,
    success_results := [true, false], after_params := some [] }

/-- Concrete fixture: a task with one input parameter, a succeeding
success-hook and an after-hook returning one parameter. -/
def witTaskSucc : Task :=
  { inputs := [witParamA], outputs := [], action_report := Value.none,
    success_results := [true], after_params := some [witParamA] }

/-- Concrete fixture: a task that keeps the inherited default after-hook,
which returns `None`. -/
def witTaskAfterNone : Task :=
  { inputs := [], outputs := [], action_report := Value.none,
    success_results := [], after_params := Option.none }

/-- Concrete fixture for the round-trip counterexample: a record whose
index is the Python tuple `(0,)`, as `workflow` indices are tuples. -/
def cexRecord : TaskLog :=
  { index := Value.tuple [Value.int 0], task_class := "T",
    inputs := [("a", Value.str "x")], outputs := [],
    last_run_success := some true, info := [] }

/-- The record the Log store hands back for `cexRecord`: the tuple index
has become a list. -/
def cexLoaded : TaskLog :=
  { cexRecord with index := Value.list [Value.int 0] }

/-- Concrete fixture: a two-level log tree whose field values are all in
persisted shape (lists, dicts, scalars — no tuples). -/
def witStableLog : List LogTree :=
  [LogTree.leaf
    { index := Value.list [Value.int 0], task_class := "A",
      inputs := [("a", Value.list [Value.str "p", Value.int 3]),
                 ("b", Value.dict [("k", Value.int 1)])],
      outputs := [], last_run_success := some true, info := [] },
   LogTree.branch [LogTree.leaf
    { index := Value.list [Value.int 1, Value.int 0], task_class := "B",
      inputs := [], outputs := [("o", Value.str "q")],
      last_run_success := Option.none, info := [] }]]

theorem rerun_fst (t : Task) (log : TaskLog) :
    (Task._rerun t log).1 = [Hook.action, Hook.success, Hook.after] := by
  unfold Task._rerun
  cases processHookReturn t.after_params with
  | error e => rfl
  | ok ps =>
    simp only
    split <;> rfl

theorem check_eq_any (paras : List Param) (old : List (String × Value)) :
    Task._check paras old = paras.any (fun para =>
      match lookupKey old para.name with
      | some v => !pyEq (normTop para._log_value) v
      | Option.none => true) := by
  have key : ∀ (l : List Param) (b : Bool),
      l.foldl (fun changed para =>
        match lookupKey old para.name with
        | some old_value =>
            if pyEq (normTop para._log_value) old_value then changed else true
        | Option.none => true) b
      = (b || l.any (fun para =>
          match lookupKey old para.name with
          | some v => !pyEq (normTop para._log_value) v
          | Option.none => true)) := by
    intro l
    induction l with
    | nil => intro b; simp
    | cons x xs ih =>
      intro b
      simp only [List.foldl_cons, List.any_cons, ih]
      cases hl : lookupKey old x.name with
      | none => simp [hl]
      | some v =>
        cases hpe : pyEq (normTop x._log_value) v <;>
          simp [hl, hpe, Bool.or_assoc]
  unfold Task._check
  rw [key]
  simp

/-- C1: a task whose input and output snapshots are unchanged (per
`Task._check`) and whose prior `last_run_success` is exactly `True` is
skipped by `Task._run`: the prior record is returned unmodified and no
hook — action, success or after — is invoked (the invoked-hook trace is
empty). -/
theorem C1_skip_returns_prior_unmodified (t : Task) (log : TaskLog)
    (h1 : Task._check t.inputs log.inputs = false)
    (h2 : Task._check t.outputs log.outputs = false)
    (h3 : log.last_run_success = some true) :
    Task._run t log = ([], Except.ok log) := by
  unfold Task._run
  rw [if_neg]
  simp [h1, h2, h3]

/-- C1 witness: the skip theorem applied to a concrete task and prior
record satisfying its hypotheses. -/
theorem C1_witness :
    Task._check witTaskSkip.inputs witLogTrue.inputs = false
    ∧ Task._check witTaskSkip.outputs witLogTrue.outputs = false
    ∧ witLogTrue.last_run_success = some true
    ∧ Task._run witTaskSkip witLogTrue = ([], Except.ok witLogTrue) :=
  ⟨rfl, rfl, rfl, C1_skip_returns_prior_unmodified witTaskSkip witLogTrue rfl rfl rfl⟩

/-- C2: `Task._run` triggers a rerun — some hook gets invoked — exactly
when the inputs changed, or the outputs changed, or the prior record's
`last_run_success` is not exactly `True`; in particular a prior
`last_run_success` of `False` or `None` forces a rerun even when every
snapshot is unchanged. -/
theorem C2_rerun_trigger_iff (t : Task) (log : TaskLog) :
    (Task._run t log).1 ≠ [] ↔
      (Task._check t.inputs log.inputs = true
        ∨ Task._check t.outputs log.outputs = true
        ∨ ¬ log.last_run_success = some true) := by
  unfold Task._run
  by_cases h : (Task._check t.inputs log.inputs = true
      ∨ Task._check t.outputs log.outputs = true
      ∨ ¬ log.last_run_success = some true)
  · rw [if_pos h]
    simp [rerun_fst, h]
  · rw [if_neg h]
    constructor
    · intro hf
      exact absurd rfl hf
    · intro hR
      exact absurd hR h

/-- C3: `Task._check` returns true exactly when some current parameter
either has no entry under its name in the prior snapshot mapping, or has
one whose stored value is not Python-equal to the parameter's snapshot
after top-level tuple-to-list normalisation (so a current tuple snapshot
compares equal to the same sequence persisted as a list); names present
only in the prior mapping are ignored, since only current parameters are
quantified over. -/
theorem C3_check_iff (paras : List Param) (old : List (String × Value)) :
    Task._check paras old = true ↔
      ∃ para ∈ paras,
        (lookupKey old para.name = Option.none
          ∨ ∃ v, lookupKey old para.name = some v
              ∧ pyEq (normTop para._log_value) v = false) := by
  rw [check_eq_any, List.any_eq_true]
  constructor
  · rintro ⟨p, hp, hcond⟩
    refine ⟨p, hp, ?_⟩
    cases hl : lookupKey old p.name with
    | none => exact Or.inl rfl
    | some v =>
      rw [hl] at hcond
      simp only [Bool.not_eq_true'] at hcond
      exact Or.inr ⟨v, rfl, hcond⟩
  · rintro ⟨p, hp, hcond⟩
    refine ⟨p, hp, ?_⟩
    rcases hcond with hnone | ⟨v, hv, hne⟩
    · rw [hnone]
    · rw [hv]
      simp [hne]

/-- C4: on a rerun that completes, a successful run stores every input
and output parameter's refreshed snapshot into the record's mappings and
sets `last_run_success` to `True`, while an unsuccessful run leaves the
inputs and outputs mappings exactly as they were before the rerun and
sets `last_run_success` to `False` (the info mapping is rebuilt from the
after-hook in both cases). -/
theorem C4_rerun_snapshot_policy (t : Task) (log : TaskLog) (ps : List Param)
    (hafter : t.after_params = some ps)
    (hnodup : (ps.map Param.name).Nodup) :
    (t.success_results.all id = true →
      (Task._rerun t log).2 = Except.ok { log with
        info := Task._rebuild ps,
        inputs := t.inputs.map (fun p => (p.name, p.updated_log_value)),
        outputs := t.outputs.map (fun p => (p.name, p.updated_log_value)),
        last_run_success := some true })
    ∧ (t.success_results.all id = false →
      (Task._rerun t log).2 = Except.ok { log with
        info := Task._rebuild ps,
        last_run_success := some false }) := by
  constructor
  · intro hs
    unfold Task._rerun
    rw [hafter]
    simp only [processHookReturn, Task._process, hnodup, if_true]
    simp only [hs]
    rfl
  · intro hs
    unfold Task._rerun
    rw [hafter]
    simp only [processHookReturn, Task._process, hnodup, if_true]
    simp only [hs]
    rfl

/-- C4 witness: the snapshot policy applied, on its failure side, to a
concrete failing task — the prior mappings survive and
`last_run_success` becomes `False`. -/
theorem C4_witness :
    witTaskFail.after_params = some []
    ∧ (([] : List Param).map Param.name).Nodup
    ∧ witTaskFail.success_results.all id = false
    ∧ (Task._rerun witTaskFail witLogTrue).2
        = Except.ok { witLogTrue with info := [], last_run_success := some false } :=
  ⟨rfl, by simp, rfl,
    (C4_rerun_snapshot_policy witTaskFail witLogTrue [] rfl (by simp)).2 rfl⟩

/-- C5: on a rerun that completes, the record's new `last_run_success` is
exactly the logical AND of all results the success-hook returned
(`List.all _ id`), which is vacuously `True` for an empty result
collection; a singleton behaves as its single element. -/
theorem C5_success_is_conjunction (t : Task) (log : TaskLog) (ps : List Param)
    (hafter : t.after_params = some ps)
    (hnodup : (ps.map Param.name).Nodup) :
    ∃ log2, (Task._rerun t log).2 = Except.ok log2
      ∧ log2.last_run_success = some (t.success_results.all id)
      ∧ (t.success_results = [] → log2.last_run_success = some true) := by
  cases hs : t.success_results.all id with
  | true =>
    refine ⟨{ log with
              info := Task._rebuild ps
              inputs := Task._rebuild t.inputs
              outputs := Task._rebuild t.outputs
              last_run_success := some true }, ?_, ?_, ?_⟩
    · unfold Task._rerun
      rw [hafter]
      simp only [processHookReturn, Task._process, hnodup, if_true]
      simp only [hs]
      rfl
    · simp [hs]
    · intro _
      rfl
  | false =>
    refine ⟨{ log with
              info := Task._rebuild ps
              last_run_success := some false }, ?_, ?_, ?_⟩
    · unfold Task._rerun
      rw [hafter]
      simp only [processHookReturn, Task._process, hnodup, if_true]
      simp only [hs]
      rfl
    · simp [hs]
    · intro hnil
      rw [hnil] at hs
      simp at hs

/-- C5 witness: the conjunction law applied to a concrete task whose
success-hook returns the singleton `[true]`. -/
theorem C5_witness :
    witTaskSucc.after_params = some [witParamA]
    ∧ ([witParamA].map Param.name).Nodup
    ∧ ∃ log2, (Task._rerun witTaskSucc witLogTrue).2 = Except.ok log2
        ∧ log2.last_run_success = some (witTaskSucc.success_results.all id)
        ∧ (witTaskSucc.success_results = [] → log2.last_run_success = some true) :=
  ⟨rfl, by simp,
    C5_success_is_conjunction witTaskSucc witLogTrue [witParamA] rfl (by simp)⟩

/-- C6: task construction fails with the duplicate-name error exactly
when the merged input set (user inputs plus the reserved `name_`, `args_`,
`kwargs_` provenance parameters) or, independently, the output set
carries a duplicate name — so a user parameter colliding with a reserved
name aborts construction, and a collision-free task constructs
successfully. -/
theorem C6_init_duplicate_names (userIn userOut : List Param) (cls : String)
    (args : List Value) (kwargs : List (String × Value)) (rep : Value)
    (succ : List Bool) (aft : Option (List Param)) :
    (∃ e, Task.init userIn userOut cls args kwargs rep succ aft = Except.error e)
      ↔ (¬ ((userIn ++ reservedParams cls args kwargs).map Param.name).Nodup
          ∨ ¬ (userOut.map Param.name).Nodup) := by
  unfold Task.init Task._process
  by_cases h1 : ((userIn ++ reservedParams cls args kwargs).map Param.name).Nodup
  · rw [if_pos h1]
    have h1n := h1
    rw [List.map_append] at h1n
    by_cases h2 : (userOut.map Param.name).Nodup
    · rw [if_pos h2]
      simp [Bind.bind, Except.bind, h1n, h2]
    · rw [if_neg h2]
      simp [Bind.bind, Except.bind, h1n, h2]
  · rw [if_neg h1]
    have h1n := h1
    rw [List.map_append] at h1n
    simp [Bind.bind, Except.bind, h1n]

/-- C10: a task that keeps the inherited default after-hook (returning
`None`) never completes a rerun: whenever the rerun trigger fires,
`Task._run` raises `TypeError` while `_process` iterates the after-hook's
`None` return — after the action and success hooks were invoked (they are
in the trace) but producing no updated record at all. -/
theorem C10_default_after_raises (t : Task) (log : TaskLog)
    (hafter : t.after_params = Option.none)
    (htrig : Task._check t.inputs log.inputs = true
      ∨ Task._check t.outputs log.outputs = true
      ∨ ¬ log.last_run_success = some true) :
    Task._run t log
      = ([Hook.action, Hook.success, Hook.after], Except.error PyErr.typeError) := by
  unfold Task._run
  rw [if_pos htrig]
  unfold Task._rerun
  rw [hafter]
  rfl

/-- C10 witness: the default-after theorem applied to a concrete task
with no prior run (`last_run_success = None`), which triggers a rerun. -/
theorem C10_witness :
    witTaskAfterNone.after_params = Option.none
    ∧ ¬ witLogNone.last_run_success = some true
    ∧ Task._run witTaskAfterNone witLogNone
        = ([Hook.action, Hook.success, Hook.after], Except.error PyErr.typeError) :=
  ⟨rfl, by simp [witLogNone],
    C10_default_after_raises witTaskAfterNone witLogNone rfl
      (Or.inr (Or.inr (by simp [witLogNone])))⟩

mutual

theorem runTreeNode_shape : ∀ (t : TaskTree) (p : Option LogTree),
    logShape (runTreeNode t p).2 = taskShape t
  | .leaf run, p => by
    simp [runTreeNode, logShape, taskShape]
  | .branch ts, p => by
    simp only [runTreeNode, logShape, taskShape]
    exact congrArg Shape.branch (run_tasks_shapeList ts _)

theorem run_tasks_shapeList : ∀ (ts : List TaskTree) (prior : List LogTree),
    logShapeList (_run_tasks ts prior).2 = taskShapeList ts
  | [], prior => by
    simp [_run_tasks, logShapeList, taskShapeList]
  | t :: ts, prior => by
    simp only [_run_tasks, logShapeList, taskShapeList]
    exact congrArg₂ List.cons (runTreeNode_shape t _) (run_tasks_shapeList ts _)

end

mutual

theorem runTreeNode_success : ∀ (t : TaskTree) (p : Option LogTree),
    (runTreeNode t p).1
      = (logLeaves (runTreeNode t p).2).all (fun r => r.last_run_success == some true)
  | .leaf run, p => by
    simp [runTreeNode, logLeaves]
  | .branch ts, p => by
    simp only [runTreeNode, logLeaves]
    exact run_tasks_success ts _

theorem run_tasks_success : ∀ (ts : List TaskTree) (prior : List LogTree),
    (_run_tasks ts prior).1
      = (logLeavesList (_run_tasks ts prior).2).all (fun r => r.last_run_success == some true)
  | [], prior => by
    simp [_run_tasks, logLeavesList]
  | t :: ts, prior => by
    simp only [_run_tasks, logLeavesList]
    rw [List.all_append]
    exact congrArg₂ (· && ·) (runTreeNode_success t _) (run_tasks_success ts _)

end

mutual

theorem runTreeNode_leaf_count : ∀ (t : TaskTree) (p : Option LogTree),
    (logLeaves (runTreeNode t p).2).length = taskLeafCount t
  | .leaf run, p => by
    simp [runTreeNode, logLeaves, taskLeafCount]
  | .branch ts, p => by
    simp only [runTreeNode, logLeaves, taskLeafCount]
    exact run_tasks_leaf_count ts _

theorem run_tasks_leaf_count : ∀ (ts : List TaskTree) (prior : List LogTree),
    (logLeavesList (_run_tasks ts prior).2).length = taskLeafCountList ts
  | [], prior => by
    simp [_run_tasks, logLeavesList, taskLeafCountList]
  | t :: ts, prior => by
    simp only [_run_tasks, logLeavesList, taskLeafCountList]
    rw [List.length_append]
    exact congrArg₂ (· + ·) (runTreeNode_leaf_count t _) (run_tasks_leaf_count ts _)

end

/-- C7 (runner modelled from the spec): the pruning law.  For every
current task tree and every prior log — absent, shorter, longer, or
shape-mismatched — the new log produced by the tree runner has, at every
nesting level, exactly the shape (and hence the entry count) of the
current tree: stale prior entries beyond the current length and prior
entries of the wrong kind are discarded. -/
theorem C7_pruning_law (tree : List TaskTree) (prior : Option (List LogTree)) :
    logShapeList (run_tasks tree prior).2 = taskShapeList tree := by
  unfold run_tasks
  exact run_tasks_shapeList tree _

/-- C8 (runner modelled from the spec): no short-circuiting and the
aggregate success law.  Every leaf task of the tree contributes exactly
one record to the new log (the leaf records are as many as the tree's
leaves, whatever the outcomes of earlier siblings), and the overall run
success is false precisely when some leaf record of the new log carries a
`last_run_success` other than exactly `True`. -/
theorem C8_success_iff_and_no_short_circuit (tree : List TaskTree)
    (prior : Option (List LogTree)) :
    ((run_tasks tree prior).1 = false ↔
      ∃ r ∈ logLeavesList (run_tasks tree prior).2, ¬ r.last_run_success = some true)
    ∧ (logLeavesList (run_tasks tree prior).2).length = taskLeafCountList tree := by
  constructor
  · unfold run_tasks
    rw [run_tasks_success, List.all_eq_false]
    constructor
    · rintro ⟨r, hr, hp⟩
      exact ⟨r, hr, by simpa using hp⟩
    · rintro ⟨r, hr, hp⟩
      exact ⟨r, hr, by simpa using hp⟩
  · unfold run_tasks
    exact run_tasks_leaf_count tree _

theorem insertEntry_perm (kv : String × Value) (l : List (String × Value)) :
    (insertEntry kv l).Perm (kv :: l) := by
  induction l with
  | nil => exact List.Perm.refl _
  | cons kv2 rest ih =>
    unfold insertEntry
    cases h : keyLe kv.1 kv2.1 with
    | true =>
      rw [if_pos rfl]
    | false =>
      rw [if_neg (by simp)]
      exact (ih.cons kv2).trans (List.Perm.swap kv kv2 rest)

theorem sortEntries_perm (l : List (String × Value)) :
    (sortEntries l).Perm l := by
  induction l with
  | nil => exact List.Perm.refl _
  | cons kv rest ih =>
    unfold sortEntries
    exact (insertEntry_perm kv (sortEntries rest)).trans (ih.cons kv)

theorem lookupKey_eq_of_nodup {kvs : List (String × Value)} {k : String} {v : Value}
    (hnd : (kvs.map Prod.fst).Nodup) (hmem : (k, v) ∈ kvs) :
    lookupKey kvs k = some v := by
  induction kvs with
  | nil => cases hmem
  | cons kv rest ih =>
    rw [List.map_cons, List.nodup_cons] at hnd
    rcases List.mem_cons.mp hmem with heq | hmem2
    · rw [← heq]
      unfold lookupKey
      rw [if_pos rfl]
    · have hk : k ∈ rest.map Prod.fst := List.mem_map.mpr ⟨(k, v), hmem2, rfl⟩
      have hne : ¬ kv.1 = k := fun he => hnd.1 (he ▸ hk)
      unfold lookupKey
      rw [if_neg hne]
      exact ih hnd.2 hmem2

theorem pyEqEntries_of_forall : ∀ (a b : List (String × Value)),
    (∀ kv ∈ a, ∃ w, lookupKey b kv.1 = some w ∧ pyEq kv.2 w = true) →
    pyEqEntries a b = true
  | [], _, _ => rfl
  | (k, v) :: rest, b, h => by
    obtain ⟨w, hw, hpe⟩ := h (k, v) (List.mem_cons_self _ _)
    unfold pyEqEntries
    rw [hw]
    simp only [hpe, Bool.true_and]
    exact pyEqEntries_of_forall rest b (fun kv hkv => h kv (List.mem_cons_of_mem _ hkv))

theorem jsonRTEntries_eq_map (kvs : List (String × Value)) :
    jsonRTEntries kvs = kvs.map (fun kv => (kv.1, jsonRT kv.2)) := by
  induction kvs with
  | nil => rfl
  | cons kv rest ih =>
    obtain ⟨k, v⟩ := kv
    simp [jsonRTEntries, ih]

theorem jsonRTList_eq_map (xs : List Value) :
    jsonRTList xs = xs.map jsonRT := by
  induction xs with
  | nil => rfl
  | cons x rest ih => simp [jsonRTList, ih]

theorem pyEqDict_jsonRT (kvs : List (String × Value))
    (hnd : keysNodup kvs = true)
    (hall : ∀ kv ∈ kvs, pyEq (jsonRT kv.2) kv.2 = true) :
    pyEqDict (sortEntries (jsonRTEntries kvs)) kvs = true := by
  have hperm : (sortEntries (jsonRTEntries kvs)).Perm (jsonRTEntries kvs) :=
    sortEntries_perm _
  have hlen : (sortEntries (jsonRTEntries kvs)).length = kvs.length := by
    rw [hperm.length_eq, jsonRTEntries_eq_map, List.length_map]
  unfold pyEqDict
  rw [hlen]
  simp only [beq_self_eq_true, Bool.true_and]
  apply pyEqEntries_of_forall
  intro kv hkv
  have hmem : kv ∈ jsonRTEntries kvs := hperm.mem_iff.mp hkv
  rw [jsonRTEntries_eq_map] at hmem
  obtain ⟨⟨k0, v0⟩, hmem0, heq⟩ := List.mem_map.mp hmem
  rw [← heq]
  refine ⟨v0, ?_, hall (k0, v0) hmem0⟩
  have hnd2 : (kvs.map Prod.fst).Nodup := by
    simpa [keysNodup] using hnd
  exact lookupKey_eq_of_nodup hnd2 hmem0

mutual

theorem pyEq_jsonRT : ∀ v : Value, jsonStable v = true → pyEq (jsonRT v) v = true
  | .none, _ => rfl
  | .bool b, _ => by simp [jsonRT, pyEq]
  | .int n, _ => by simp [jsonRT, pyEq]
  | .str s, _ => by simp [jsonRT, pyEq]
  | .list xs, h => by
    simp only [jsonRT, pyEq]
    exact pyEqList_jsonRT xs (by simpa [jsonStable] using h)
  | .tuple xs, h => by simp [jsonStable] at h
  | .dict kvs, h => by
    simp only [jsonStable, Bool.and_eq_true] at h
    simp only [jsonRT]
    show pyEqDict (sortEntries (jsonRTEntries kvs)) kvs = true
    exact pyEqDict_jsonRT kvs h.1 (entries_jsonRT_forall kvs h.2)

theorem pyEqList_jsonRT : ∀ xs : List Value,
    jsonStableList xs = true → pyEqList (jsonRTList xs) xs = true
  | [], _ => rfl
  | x :: xs, h => by
    simp only [jsonStableList, Bool.and_eq_true] at h
    simp only [jsonRTList, pyEqList]
    rw [pyEq_jsonRT x h.1, pyEqList_jsonRT xs h.2]
    rfl

theorem entries_jsonRT_forall : ∀ kvs : List (String × Value),
    jsonStableEntries kvs = true → ∀ kv ∈ kvs, pyEq (jsonRT kv.2) kv.2 = true
  | [], _, kv, hkv => absurd hkv (List.not_mem_nil _)
  | (k, v) :: rest, h, kv, hkv => by
    simp only [jsonStableEntries, Bool.and_eq_true] at h
    rcases List.mem_cons.mp hkv with heq | hmem
    · rw [heq]
      exact pyEq_jsonRT v h.1
    · exact entries_jsonRT_forall rest h.2 kv hmem

end

theorem taskLog_roundtrip (r : TaskLog) (h : recordJsonStable r = true) :
    ∃ r2, taskLogFromJson (jsonRT (taskLogToJson r)) = some r2
      ∧ TaskLog.pyEqLog r2 r = true := by
  obtain ⟨idx, tc, ins, outs, lrs, inf⟩ := r
  simp only [recordJsonStable, Bool.and_eq_true] at h
  obtain ⟨⟨⟨hidx, hins⟩, houts⟩, hinf⟩ := h
  simp only [jsonStable, Bool.and_eq_true] at hins houts hinf
  have hdict : ∀ (kvs : List (String × Value)), keysNodup kvs = true →
      jsonStableEntries kvs = true →
      pyEqDict (sortEntries (jsonRTEntries kvs)) kvs = true :=
    fun kvs h1 h2 => pyEqDict_jsonRT kvs h1 (entries_jsonRT_forall kvs h2)
  cases lrs with
  | none =>
    refine ⟨_, rfl, ?_⟩
    simp only [TaskLog.pyEqLog]
    rw [pyEq_jsonRT idx hidx, hdict ins hins.1 hins.2, hdict outs houts.1 houts.2,
      hdict inf hinf.1 hinf.2]
    simp
  | some b =>
    refine ⟨_, rfl, ?_⟩
    simp only [TaskLog.pyEqLog]
    rw [pyEq_jsonRT idx hidx, hdict ins hins.1 hins.2, hdict outs houts.1 houts.2,
      hdict inf hinf.1 hinf.2]
    simp

theorem logTreeFromJson_dict (kvs : List (String × Value)) :
    logTreeFromJson (.dict kvs) = (taskLogFromJson (.dict kvs)).map .leaf :=
  rfl

mutual

theorem logTree_roundtrip : ∀ t : LogTree, logTreeJsonStable t = true →
    ∃ t2, logTreeFromJson (jsonRT (logTreeToJson t)) = some t2 ∧ logTreePyEq t2 t = true
  | .leaf r, h => by
    obtain ⟨r2, hparse, hpe⟩ := taskLog_roundtrip r (by simpa [logTreeJsonStable] using h)
    refine ⟨.leaf r2, ?_, ?_⟩
    · show logTreeFromJson (jsonRT (taskLogToJson r)) = some (.leaf r2)
      obtain ⟨kvs, hkvs⟩ : ∃ kvs, jsonRT (taskLogToJson r) = .dict kvs := ⟨_, rfl⟩
      rw [hkvs, logTreeFromJson_dict, ← hkvs, hparse]
      rfl
    · simpa [logTreePyEq] using hpe
  | .branch ls, h => by
    obtain ⟨ls2, hls, hlse⟩ := logTreeList_roundtrip ls (by simpa [logTreeJsonStable] using h)
    refine ⟨.branch ls2, ?_, ?_⟩
    · show logTreeFromJson (jsonRT (.list (logTreeListToJson ls))) = some (.branch ls2)
      simp only [jsonRT, logTreeFromJson]
      rw [hls]
      rfl
    · simpa [logTreePyEq] using hlse

theorem logTreeList_roundtrip : ∀ ls : List LogTree, logTreeListJsonStable ls = true →
    ∃ ls2, logTreeListFromJson (jsonRTList (logTreeListToJson ls)) = some ls2
      ∧ logTreeListPyEq ls2 ls = true
  | [], _ => ⟨[], rfl, rfl⟩
  | l :: ls, h => by
    simp only [logTreeListJsonStable, Bool.and_eq_true] at h
    obtain ⟨t2, ht, hte⟩ := logTree_roundtrip l h.1
    obtain ⟨ls2, hls, hlse⟩ := logTreeList_roundtrip ls h.2
    refine ⟨t2 :: ls2, ?_, ?_⟩
    · simp only [logTreeListToJson, jsonRTList, logTreeListFromJson]
      rw [ht, hls]
    · simp only [logTreeListPyEq]
      rw [hte, hlse]
      rfl

end

/-- C9 counterexample: the round-trip claim fails as stated.  For the
one-leaf log tree whose record carries the tuple index `(0,)`, writing
with the Log store and loading back yields a record whose index is the
list `[0]`, and under full structural equality (`TaskLog.__eq__`) the
loaded structure is NOT equal to the original. -/
theorem C9_counterexample :
    Log._load (Log._write [LogTree.leaf cexRecord]) = some [LogTree.leaf cexLoaded]
    ∧ logTreeListPyEq [LogTree.leaf cexLoaded] [LogTree.leaf cexRecord] = false :=
  ⟨rfl, rfl⟩

/-- C9 amended: for every log tree whose record field values are already
in persisted shape — no native tuple anywhere (and well-formed dicts) —
writing with the Log store and loading back reproduces an equal recursive
leaf/sequence structure, record equality being full structural equality. -/
theorem C9_roundtrip_persisted_shape (log : List LogTree)
    (h : logTreeListJsonStable log = true) :
    ∃ log2, Log._load (Log._write log) = some log2
      ∧ logTreeListPyEq log2 log = true := by
  obtain ⟨log2, hparse, hpe⟩ := logTreeList_roundtrip log h
  refine ⟨log2, ?_, hpe⟩
  unfold Log._write
  simp only [jsonRT]
  exact hparse

/-- C9 witness: the amended round-trip law applied to a concrete
two-level log tree holding lists, dicts and scalars. -/
theorem C9_witness :
    logTreeListJsonStable witStableLog = true
    ∧ ∃ log2, Log._load (Log._write witStableLog) = some log2
        ∧ logTreeListPyEq log2 witStableLog = true :=
  ⟨rfl, C9_roundtrip_persisted_shape witStableLog rfl⟩

end Wolo
